import Mathlib

/-!
Verification of the two graph generators of the deltawye repository:
`scripts/generate-cylinder.py` and `scripts/generate-wheel.py`.

Each script is embedded shallowly: coordinates are pairs of `Int` (Python's
`%` on a positive modulus agrees with Lean's `Int.emod`), Python lists are
Lean lists, the relabeling `dict(zip(vertices, range(1, 1+len(vertices))))`
is modelled as positional lookup in `vertices` (Python dict construction from
a list of distinct keys maps a key to the value paired with it, i.e. to
`1 + index`), and a lookup that would raise `KeyError` is an `Option` failure
threaded through `mapM`.  The `main` functions are embedded as functions from
the argument vector to `Except`: `Except.error` models `sys.exit(message)`
(non-zero status, diagnostic, no stdout output) and `Except.ok lines` models
printing `lines` and exiting with status 0.
-/

/-- Helper for the model of Python `int`: reads a run of decimal digits,
accumulating the value; fails on any non-digit character. -/
def digitsAux : Nat → List Char → Option Nat
  | acc, [] => some acc
  | acc, c :: cs =>
      if c.isDigit then digitsAux (10 * acc + (c.toNat - '0'.toNat)) cs else none

/-- Model of Python `int(s)` as used by both scripts: optional surrounding
whitespace, an optional `+`/`-` sign, then one or more decimal digits;
anything else raises `ValueError`, modelled as `none`. -/
def pyParseInt (s : String) : Option Int :=
  let cs := ((s.toList.dropWhile Char.isWhitespace).reverse.dropWhile Char.isWhitespace).reverse
  match cs with
  | '-' :: rest =>
      if rest = [] then none else (digitsAux 0 rest).map fun v => -(v : Int)
  | '+' :: rest =>
      if rest = [] then none else (digitsAux 0 rest).map fun v => (v : Int)
  | rest =>
      if rest = [] then none else (digitsAux 0 rest).map fun v => (v : Int)

namespace GenCylinder

/-- Neighbour function `right(x, y) = ((x+1) % n, y)` of generate-cylinder.py. -/
def right (n : Nat) (p : Int × Int) : Int × Int := ((p.1 + 1) % (n : Int), p.2)

/-- Neighbour function `left(x, y) = ((x-1) % n, y)` of generate-cylinder.py. -/
def left (n : Nat) (p : Int × Int) : Int × Int := ((p.1 - 1) % (n : Int), p.2)

/-- Neighbour function `up(x, y) = (x, (y-1) % m)` of generate-cylinder.py. -/
def up (m : Nat) (p : Int × Int) : Int × Int := (p.1, (p.2 - 1) % (m : Int))

/-- Neighbour function `down(x, y) = (x, (y+1) % m)` of generate-cylinder.py. -/
def down (m : Nat) (p : Int × Int) : Int × Int := (p.1, (p.2 + 1) % (m : Int))

/-- Row template `first(x, y) = [(x,y), right, down, left]` for the `y = 0` row. -/
def first (n m : Nat) (p : Int × Int) : List (Int × Int) :=
  [p, right n p, down m p, left n p]

/-- Row template `middle(x, y) = [(x,y), right, down, left, up]` for interior rows. -/
def middle (n m : Nat) (p : Int × Int) : List (Int × Int) :=
  [p, right n p, down m p, left n p, up m p]

/-- Row template `last(x, y) = [(x,y), right, left, up]` for the `y = m-1` row. -/
def last (n m : Nat) (p : Int × Int) : List (Int × Int) :=
  [p, right n p, left n p, up m p]

/-- The list `firstRow = [first(i, 0) for i in range(n)]`. -/
def firstRow (n m : Nat) : List (List (Int × Int)) :=
  (List.range n).map fun i : Nat => first n m ((i : Int), 0)

/-- The list `middleRows = [middle(i, j) for i in range(n) for j in range(1, m-1)]`:
outer loop over the column `i`, inner loop over the row `j`. -/
def middleRows (n m : Nat) : List (List (Int × Int)) :=
  (List.range n).flatMap fun i : Nat =>
    (List.range' 1 (m - 2)).map fun j : Nat => middle n m ((i : Int), (j : Int))

/-- The list `lastRow = [last(i, m-1) for i in range(n)]`. -/
def lastRow (n m : Nat) : List (List (Int × Int)) :=
  (List.range n).map fun i : Nat => last n m ((i : Int), (m : Int) - 1)

/-- The list `rows = firstRow + middleRows + lastRow` of coordinate rows. -/
def rows (n m : Nat) : List (List (Int × Int)) :=
  firstRow n m ++ middleRows n m ++ lastRow n m

/-- The enumeration `vertices = [(i,j) for j in range(m) for i in range(n)]`:
row-major order, outer loop over the row `j`. -/
def vertices (n m : Nat) : List (Int × Int) :=
  (List.range m).flatMap fun j : Nat => (List.range n).map fun i : Nat => ((i : Int), (j : Int))

/-- The dictionary `relabel = dict(zip(vertices, range(1, 1+len(vertices))))`:
a key present in `vertices` is mapped to one plus its position, a missing key
raises `KeyError`, modelled as `none`. -/
def relabel (n m : Nat) (p : Int × Int) : Option Nat :=
  ((vertices n m).indexOf? p).map (· + 1)

/-- The function `createPlaneCylindricalGraph(n, m)`: every coordinate of every
row is pushed through the `relabel` dictionary; a `KeyError` anywhere makes the
whole result `none`. -/
def createPlaneCylindricalGraph (n m : Nat) : Option (List (List Nat)) :=
  (rows n m).mapM fun r => r.mapM (relabel n m)

/-- Closed form of the ID the `relabel` dictionary assigns to an in-range
coordinate pair: one plus its position in the row-major enumeration. -/
def idOf (n : Nat) (p : Int × Int) : Nat := p.2.toNat * n + p.1.toNat + 1

/-- The relabeled rows, written with the closed-form ID; proved below to be
what `createPlaneCylindricalGraph` returns. -/
def graphCore (n m : Nat) : List (List Nat) :=
  (rows n m).map fun r => r.map (idOf n)

/-- The `main` of generate-cylinder.py on an argument vector
(`argv.head` is the program name, as in `sys.argv`). -/
def cylinderMain (argv : List String) : Except String (List String) :=
  match argv with
  | [_, a, b] =>
    match pyParseInt a, pyParseInt b with
    | some n, some m =>
      if n < 3 then .error "error: n must not be smaller than 3 (to avoid loops)"
      else if m < 2 then .error "error: m must not be smaller than 2"
      else
        match createPlaneCylindricalGraph n.toNat m.toNat with
        | some graph => .ok (graph.map fun l => String.intercalate " " (l.map toString))
        | none => .error "KeyError"
    | _, _ => .error "error: n and m must be integers"
  | _ => .error "usage: generate-cylinder.py n m"

end GenCylinder

namespace GenWheel

/-- The function `createPlaneWheelGraph(n)` of generate-wheel.py:
`m = n-1` cycle vertices `0..m-1` and the hub `m`; the returned rows hold the
raw identifiers (there is no relabeling step in this script). -/
def createPlaneWheelGraph (n : Int) : List (List Int) :=
  let m := n - 1
  let center := m :: (List.range m.toNat).map fun x : Nat => (x : Int)
  let cycle := (List.range m.toNat).map fun x : Nat =>
    [(x : Int), m, ((x : Int) - 1) % m, ((x : Int) + 1) % m]
  cycle ++ [center]

/-- The `main` of generate-wheel.py on an argument vector. -/
def wheelMain (argv : List String) : Except String (List String) :=
  match argv with
  | [_, a] =>
    match pyParseInt a with
    | some n =>
      if n < 4 then .error "error: n must not be smaller than 4"
      else .ok ((createPlaneWheelGraph n).map fun l => String.intercalate " " (l.map toString))
    | none => .error "error: n must be an integer"
  | _ => .error "usage: generate-wheel.py n"

end GenWheel

/-- Adjacency of the printed graph: `b` is listed among the neighbours in the
row whose self (first) entry is `a`. -/
def Adj {α : Type} (g : List (List α)) (a b : α) : Prop :=
  ∃ r ∈ g, r.head? = some a ∧ b ∈ r.tail

instance {α : Type} [DecidableEq α] (g : List (List α)) (a b : α) :
    Decidable (Adj g a b) := by
  unfold Adj
  infer_instance

example : GenCylinder.cylinderMain ["generate-cylinder.py", "3", "2"] =
    .ok ["1 2 4 3", "2 3 5 1", "3 1 6 2", "4 5 6 1", "5 6 4 2", "6 4 5 3"] := rfl

example : GenWheel.wheelMain ["generate-wheel.py", "4"] =
    .ok ["0 3 2 1", "1 3 0 2", "2 3 1 0", "3 0 1 2"] := rfl

/-! Basic helper lemmas. -/

/-- Bounds of `Int.emod` by a positive natural modulus. -/
theorem emod_bounds (a : Int) (k : Nat) (hk : 1 ≤ k) :
    0 ≤ a % (k : Int) ∧ a % (k : Int) < (k : Int) := by
  have hk' : (0 : Int) < (k : Int) := by exact_mod_cast hk
  exact ⟨Int.emod_nonneg a (by omega), Int.emod_lt_of_pos a hk'⟩

/-- Shifting the argument of `%` by a multiple-free offset changes the value. -/
theorem emod_add_ne (a d : Int) (k : Nat) (hnd : ¬ ((k : Int) ∣ d)) :
    (a + d) % (k : Int) ≠ a % (k : Int) := by
  intro h
  rw [Int.emod_eq_emod_iff_emod_sub_eq_zero] at h
  have : (k : Int) ∣ (a + d - a) := Int.dvd_of_emod_eq_zero h
  simp at this
  exact hnd this

/-- Reducing an operand of `+` modulo `k` does not change the result mod `k`. -/
theorem emod_add_emod (a b : Int) (k : Int) : (a % k + b) % k = (a + b) % k := by
  conv_rhs => rw [Int.add_emod]
  rw [Int.add_emod (a % k) b]
  simp [Int.emod_emod_of_dvd]

/-- Reducing an operand of `-` modulo `k` does not change the result mod `k`. -/
theorem emod_sub_emod (a b : Int) (k : Int) : (a % k - b) % k = (a - b) % k := by
  conv_rhs => rw [Int.sub_emod]
  rw [Int.sub_emod (a % k) b]
  simp [Int.emod_emod_of_dvd]

/-- A `mapM` into `Option` that succeeds pointwise succeeds globally, returning
the pointwise values. -/
theorem mapM_eq_some_map {α β : Type} (f : α → Option β) (g : α → β) :
    ∀ l : List α, (∀ a ∈ l, f a = some (g a)) → l.mapM f = some (l.map g) := by
  intro l
  induction l with
  | nil => intro _; rfl
  | cons a t ih =>
      intro h
      rw [List.mapM_cons, h a (by simp), ih (fun b hb => h b (by simp [hb]))]
      rfl

/-- `indexOf?` distributes over append the way `findIdx?` does. -/
theorem indexOf?_append {α : Type} [BEq α] (l1 l2 : List α) (a : α) :
    (l1 ++ l2).indexOf? a =
      (l1.indexOf? a).or ((l2.indexOf? a).map (· + l1.length)) := by
  simp [List.indexOf?, List.findIdx?_append]

namespace GenCylinder

/-- Membership in the row-major vertex enumeration is exactly in-range
coordinates. -/
theorem mem_vertices {n m : Nat} {p : Int × Int} :
    p ∈ vertices n m ↔ 0 ≤ p.1 ∧ p.1 < (n : Int) ∧ 0 ≤ p.2 ∧ p.2 < (m : Int) := by
  simp only [vertices, List.mem_flatMap, List.mem_map, List.mem_range]
  constructor
  · rintro ⟨j, hj, i, hi, rfl⟩
    refine ⟨?_, ?_, ?_, ?_⟩ <;> simp <;> omega
  · rintro ⟨h1, h2, h3, h4⟩
    refine ⟨p.2.toNat, by omega, p.1.toNat, by omega, ?_⟩
    obtain ⟨i, j⟩ := p
    simp only [Prod.mk.injEq]
    constructor <;> simp <;> omega

/-- The vertex enumeration has `m * n` elements. -/
theorem length_vertices (n m : Nat) : (vertices n m).length = m * n := by
  induction m with
  | zero => simp [vertices]
  | succ M ih =>
      have hsplit : vertices n (M + 1) =
          vertices n M ++ ((List.range n).map fun i : Nat => ((i : Int), (M : Int))) := by
        simp [vertices, List.range_succ]
      rw [hsplit, List.length_append, ih, List.length_map, List.length_range]
      ring

/-- Position of a column entry inside one row block of the enumeration. -/
theorem indexOf?_colRange (n x : Nat) (j : Int) (h : x < n) :
    (((List.range n).map fun i : Nat => ((i : Int), j)).indexOf? ((x : Int), j)) = some x := by
  induction n with
  | zero => omega
  | succ N ih =>
      rw [List.range_succ, List.map_append, indexOf?_append]
      rcases Nat.lt_or_ge x N with h1 | h1
      · rw [ih h1]
        rfl
      · have hx : x = N := by omega
        rw [hx]
        have hnone : (((List.range N).map fun i : Nat => ((i : Int), j)).indexOf?
            ((N : Int), j)) = none := by
          rw [List.indexOf?_eq_none_iff]
          intro q hq
          simp only [List.mem_map, List.mem_range] at hq
          obtain ⟨i, hi, rfl⟩ := hq
          simp only [beq_iff_eq, Prod.mk.injEq]
          rintro ⟨h2, -⟩
          omega
        rw [hnone]
        simp [List.indexOf?_cons]

/-- Position of an in-range coordinate pair in the row-major enumeration. -/
theorem indexOf?_vertices (n m x y : Nat) (hx : x < n) (hy : y < m) :
    (vertices n m).indexOf? ((x : Int), (y : Int)) = some (y * n + x) := by
  induction m with
  | zero => omega
  | succ M ih =>
      have hsplit : vertices n (M + 1) =
          vertices n M ++ ((List.range n).map fun i : Nat => ((i : Int), (M : Int))) := by
        simp [vertices, List.range_succ]
      rw [hsplit, indexOf?_append]
      rcases Nat.lt_or_ge y M with h1 | h1
      · rw [ih h1]
        rfl
      · have hyM : y = M := by omega
        rw [hyM]
        have hnone : (vertices n M).indexOf? ((x : Int), (M : Int)) = none := by
          rw [List.indexOf?_eq_none_iff]
          intro q hq
          rw [mem_vertices] at hq
          simp only [beq_iff_eq]
          intro heq
          rw [heq] at hq
          simp only [] at hq
          omega
        rw [hnone, indexOf?_colRange n x _ hx, length_vertices]
        simp
        ring

/-- On an in-range coordinate the `relabel` dictionary succeeds with the
closed-form row-major ID. -/
theorem relabel_eq_idOf {n m : Nat} {a b : Int} (h1 : 0 ≤ a)
    (h2 : a < (n : Int)) (h3 : 0 ≤ b) (h4 : b < (m : Int)) :
    relabel n m (a, b) = some (idOf n (a, b)) := by
  rw [relabel, show ((a, b) : Int × Int) = ((a.toNat : Int), (b.toNat : Int)) by
    simp only [Prod.mk.injEq]; omega]
  rw [indexOf?_vertices n m a.toNat b.toNat (by omega) (by omega)]
  rfl

/-- Characterization of the rows list: a row is a `first` template at `(x, 0)`,
a `middle` template at `(x, j)` with `1 ≤ j ≤ m-2`, or a `last` template at
`(x, m-1)`, each with `x < n`. -/
theorem mem_rows {n m : Nat} {r : List (Int × Int)} :
    r ∈ rows n m ↔
      (∃ x : Nat, x < n ∧ r = first n m ((x : Int), 0)) ∨
      (∃ x j : Nat, x < n ∧ 1 ≤ j ∧ j ≤ m - 2 ∧ r = middle n m ((x : Int), (j : Int))) ∨
      (∃ x : Nat, x < n ∧ r = last n m ((x : Int), (m : Int) - 1)) := by
  simp only [rows, List.mem_append, firstRow, middleRows, lastRow, List.mem_map,
    List.mem_flatMap, List.mem_range, List.mem_range'_1]
  constructor
  · rintro ((⟨x, hx, rfl⟩ | ⟨x, hx, j, ⟨hj1, hj2⟩, rfl⟩) | ⟨x, hx, rfl⟩)
    · exact Or.inl ⟨x, hx, rfl⟩
    · exact Or.inr (Or.inl ⟨x, j, hx, hj1, by omega, rfl⟩)
    · exact Or.inr (Or.inr ⟨x, hx, rfl⟩)
  · rintro (⟨x, hx, rfl⟩ | ⟨x, j, hx, hj1, hj2, rfl⟩ | ⟨x, hx, rfl⟩)
    · exact Or.inl (Or.inl ⟨x, hx, rfl⟩)
    · exact Or.inl (Or.inr ⟨x, hx, j, ⟨hj1, by omega⟩, rfl⟩)
    · exact Or.inr ⟨x, hx, rfl⟩

/-- Every coordinate pair appearing in any row is in range, hence in the
vertex enumeration. -/
theorem mem_row_coords {n m : Nat} (hn : 1 ≤ n) (hm : 1 ≤ m)
    {r : List (Int × Int)} (hr : r ∈ rows n m) {a b : Int} (hp : (a, b) ∈ r) :
    0 ≤ a ∧ a < (n : Int) ∧ 0 ≤ b ∧ b < (m : Int) := by
  rcases mem_rows.1 hr with ⟨x, hx, rfl⟩ | ⟨x, j, hx, hj1, hj2, rfl⟩ | ⟨x, hx, rfl⟩
  · simp only [first, right, down, left, List.mem_cons, List.not_mem_nil, or_false,
      Prod.mk.injEq] at hp
    rcases hp with ⟨rfl, rfl⟩ | ⟨rfl, rfl⟩ | ⟨rfl, rfl⟩ | ⟨rfl, rfl⟩
    · refine ⟨by omega, by omega, by omega, by omega⟩
    · exact ⟨(emod_bounds _ n hn).1, (emod_bounds _ n hn).2, by omega, by omega⟩
    · exact ⟨by omega, by omega, (emod_bounds _ m hm).1, (emod_bounds _ m hm).2⟩
    · exact ⟨(emod_bounds _ n hn).1, (emod_bounds _ n hn).2, by omega, by omega⟩
  · simp only [middle, right, down, left, up, List.mem_cons, List.not_mem_nil, or_false,
      Prod.mk.injEq] at hp
    have hj3 : j < m := by omega
    rcases hp with ⟨rfl, rfl⟩ | ⟨rfl, rfl⟩ | ⟨rfl, rfl⟩ | ⟨rfl, rfl⟩ | ⟨rfl, rfl⟩
    · refine ⟨by omega, by omega, by omega, by omega⟩
    · exact ⟨(emod_bounds _ n hn).1, (emod_bounds _ n hn).2, by omega, by omega⟩
    · exact ⟨by omega, by omega, (emod_bounds _ m hm).1, (emod_bounds _ m hm).2⟩
    · exact ⟨(emod_bounds _ n hn).1, (emod_bounds _ n hn).2, by omega, by omega⟩
    · exact ⟨by omega, by omega, (emod_bounds _ m hm).1, (emod_bounds _ m hm).2⟩
  · simp only [last, right, left, up, List.mem_cons, List.not_mem_nil, or_false,
      Prod.mk.injEq] at hp
    rcases hp with ⟨rfl, rfl⟩ | ⟨rfl, rfl⟩ | ⟨rfl, rfl⟩ | ⟨rfl, rfl⟩
    · refine ⟨by omega, by omega, by omega, by omega⟩
    · exact ⟨(emod_bounds _ n hn).1, (emod_bounds _ n hn).2, by omega, by omega⟩
    · exact ⟨(emod_bounds _ n hn).1, (emod_bounds _ n hn).2, by omega, by omega⟩
    · exact ⟨by omega, by omega, (emod_bounds _ m hm).1, (emod_bounds _ m hm).2⟩

/-- With positive dimensions, the relabeling never raises `KeyError`:
`createPlaneCylindricalGraph` succeeds and returns the closed-form graph. -/
theorem createPlane_eq_graphCore {n m : Nat} (hn : 1 ≤ n) (hm : 1 ≤ m) :
    createPlaneCylindricalGraph n m = some (graphCore n m) := by
  unfold createPlaneCylindricalGraph graphCore
  refine mapM_eq_some_map _ _ _ ?_
  intro r hr
  refine mapM_eq_some_map _ _ _ ?_
  intro p hp
  obtain ⟨a, b⟩ := p
  have h := mem_row_coords hn hm hr hp
  exact relabel_eq_idOf h.1 h.2.1 h.2.2.1 h.2.2.2

/-- Sum of a constant over an index range. -/
theorem sum_const_range (N c : Nat) : ((List.range N).map fun _ => c).sum = N * c := by
  induction N with
  | zero => simp
  | succ K ih =>
      rw [List.range_succ, List.map_append, List.sum_append, ih]
      simp
      ring

/-- The rows list has `n + (n * (m-2) + n)` entries. -/
theorem rows_length (n m : Nat) : (rows n m).length = n + (n * (m - 2) + n) := by
  simp only [rows, List.length_append, firstRow, middleRows, lastRow, List.length_map,
    List.length_range, List.length_flatMap, Function.comp_def, List.length_range',
    sum_const_range]
  omega

end GenCylinder

/-- A positive integer smaller than `k` is not divisible by `k`. -/
theorem not_dvd_small (k : Nat) (d : Int) (h1 : 0 < d) (h2 : d < (k : Int)) :
    ¬ ((k : Int) ∣ d) := by
  intro h
  have := Int.le_of_dvd h1 h
  omega

/-- Shifting an in-range value by a multiple-free offset and reducing changes it. -/
theorem shift_emod_ne (a d : Int) (k : Nat) (ha1 : 0 ≤ a) (ha2 : a < (k : Int))
    (hd : ¬ ((k : Int) ∣ d)) : (a + d) % (k : Int) ≠ a := by
  intro h
  exact emod_add_ne a d k hd (h.trans (Int.emod_eq_of_lt ha1 ha2).symm)

/-- Successor modulo `k ≥ 2` moves every in-range value. -/
theorem add_one_emod_ne (a : Int) (k : Nat) (hk : 2 ≤ k) (ha1 : 0 ≤ a)
    (ha2 : a < (k : Int)) : (a + 1) % (k : Int) ≠ a :=
  shift_emod_ne a 1 k ha1 ha2 (not_dvd_small k 1 (by omega) (by omega))

/-- Predecessor modulo `k ≥ 2` moves every in-range value. -/
theorem sub_one_emod_ne (a : Int) (k : Nat) (hk : 2 ≤ k) (ha1 : 0 ≤ a)
    (ha2 : a < (k : Int)) : (a - 1) % (k : Int) ≠ a := by
  rw [sub_eq_add_neg]
  refine shift_emod_ne a (-1) k ha1 ha2 ?_
  rw [Int.dvd_neg]
  exact not_dvd_small k 1 (by omega) (by omega)

/-- Successor and predecessor modulo `k ≥ 3` differ. -/
theorem succ_pred_emod_ne (a : Int) (k : Nat) (hk : 3 ≤ k) :
    (a + 1) % (k : Int) ≠ (a - 1) % (k : Int) := by
  intro h
  rw [Int.emod_eq_emod_iff_emod_sub_eq_zero] at h
  have hdvd := Int.dvd_of_emod_eq_zero h
  rw [show (a + 1 - (a - 1) : Int) = 2 by ring] at hdvd
  exact not_dvd_small k 2 (by omega) (by omega) hdvd

/-- Row-major encoding of in-range pairs is injective. -/
theorem rowmajor_inj {n : Nat} {x1 y1 x2 y2 : Nat} (h1 : x1 < n) (h2 : x2 < n)
    (he : y1 * n + x1 = y2 * n + x2) : x1 = x2 ∧ y1 = y2 := by
  have m1 : (y1 * n + x1) % n = x1 := by
    rw [Nat.mul_comm, Nat.mul_add_mod, Nat.mod_eq_of_lt h1]
  have m2 : (y2 * n + x2) % n = x2 := by
    rw [Nat.mul_comm, Nat.mul_add_mod, Nat.mod_eq_of_lt h2]
  have hx : x1 = x2 := by rw [← m1, ← m2, he]
  refine ⟨hx, ?_⟩
  have hn : 0 < n := by omega
  have : y1 * n = y2 * n := by omega
  exact Nat.eq_of_mul_eq_mul_right hn this

namespace GenCylinder

/-- Under the validated bounds every row holds pairwise distinct coordinates. -/
theorem row_nodup {n m : Nat} (hn : 3 ≤ n) (hm : 2 ≤ m) {r : List (Int × Int)}
    (hr : r ∈ rows n m) : r.Nodup := by
  have hnI : (3 : Int) ≤ (n : Int) := by exact_mod_cast hn
  have hmI : (2 : Int) ≤ (m : Int) := by exact_mod_cast hm
  have h1m : (0 + 1 : Int) % (m : Int) = 1 := Int.emod_eq_of_lt (by omega) (by omega)
  rcases mem_rows.1 hr with ⟨x, hx, rfl⟩ | ⟨x, j, hx, hj1, hj2, rfl⟩ | ⟨x, hx, rfl⟩
  · have hxI : (0 : Int) ≤ (x : Int) ∧ (x : Int) < (n : Int) := by
      constructor <;> omega
    simp only [first, right, down, left, List.nodup_cons, List.mem_cons,
      List.not_mem_nil, or_false, not_or, Prod.mk.injEq, not_and, List.nodup_nil,
      and_true]
    refine ⟨⟨?_, ?_, ?_⟩, ⟨?_, ?_⟩, ?_⟩
    · intro h; exact absurd h.symm (add_one_emod_ne _ n (by omega) hxI.1 hxI.2)
    · intro _ h; rw [h1m] at h; omega
    · intro h; exact absurd h.symm (sub_one_emod_ne _ n (by omega) hxI.1 hxI.2)
    · intro _ h; rw [h1m] at h; omega
    · intro h; exact absurd h (succ_pred_emod_ne _ n (by omega))
    · refine ⟨fun _ h => ?_, not_false⟩
      rw [h1m] at h; omega
  · have hm3 : 3 ≤ m := by omega
    have hxI : (0 : Int) ≤ (x : Int) ∧ (x : Int) < (n : Int) := by
      constructor <;> omega
    have hdj : ((j : Int) + 1) % (m : Int) = (j : Int) + 1 :=
      Int.emod_eq_of_lt (by omega) (by omega)
    have huj : ((j : Int) - 1) % (m : Int) = (j : Int) - 1 :=
      Int.emod_eq_of_lt (by omega) (by omega)
    simp only [middle, right, down, left, up, List.nodup_cons, List.mem_cons,
      List.not_mem_nil, or_false, not_or, Prod.mk.injEq, not_and, List.nodup_nil,
      and_true]
    refine ⟨⟨?_, ?_, ?_, ?_⟩, ⟨?_, ?_, ?_⟩, ⟨?_, ?_⟩, ?_⟩
    · intro h; exact absurd h.symm (add_one_emod_ne _ n (by omega) hxI.1 hxI.2)
    · intro _ h; rw [hdj] at h; omega
    · intro h; exact absurd h.symm (sub_one_emod_ne _ n (by omega) hxI.1 hxI.2)
    · intro _ h; rw [huj] at h; omega
    · intro _ h; rw [hdj] at h; omega
    · intro h; exact absurd h (succ_pred_emod_ne _ n (by omega))
    · intro _ h; rw [huj] at h; omega
    · intro _ h; rw [hdj] at h; omega
    · intro _ h; rw [hdj, huj] at h; omega
    · refine ⟨fun _ h => ?_, not_false⟩
      rw [huj] at h; omega
  · have hxI : (0 : Int) ≤ (x : Int) ∧ (x : Int) < (n : Int) := by
      constructor <;> omega
    have hup : ((m : Int) - 1 - 1) % (m : Int) = (m : Int) - 2 := by
      rw [show ((m : Int) - 1 - 1) = (m : Int) - 2 by ring]
      exact Int.emod_eq_of_lt (by omega) (by omega)
    simp only [last, right, left, up, List.nodup_cons, List.mem_cons,
      List.not_mem_nil, or_false, not_or, Prod.mk.injEq, not_and, List.nodup_nil,
      and_true]
    refine ⟨⟨?_, ?_, ?_⟩, ⟨?_, ?_⟩, ?_⟩
    · intro h; exact absurd h.symm (add_one_emod_ne _ n (by omega) hxI.1 hxI.2)
    · intro h; exact absurd h.symm (sub_one_emod_ne _ n (by omega) hxI.1 hxI.2)
    · intro _ h; rw [hup] at h; omega
    · intro h; exact absurd h (succ_pred_emod_ne _ n (by omega))
    · intro _ h; rw [hup] at h; omega
    · refine ⟨fun _ h => ?_, not_false⟩
      rw [hup] at h; omega

end GenCylinder

namespace GenWheel

/-- Unfolding of the wheel builder: cycle rows then the hub row. -/
theorem wheel_unfold (n : Int) : createPlaneWheelGraph n =
    ((List.range (n - 1).toNat).map fun x : Nat =>
      [(x : Int), n - 1, ((x : Int) - 1) % (n - 1), ((x : Int) + 1) % (n - 1)]) ++
    [(n - 1) :: (List.range (n - 1).toNat).map fun x : Nat => (x : Int)] := rfl

/-- The wheel builder emits `(n-1) + 1` rows. -/
theorem wheel_length (n : Int) : (createPlaneWheelGraph n).length = (n - 1).toNat + 1 := by
  rw [wheel_unfold]
  simp

/-- Row `k < n-1` of the wheel output is the cycle row of vertex `k`. -/
theorem wheel_getElem_cycle {n : Int} {k : Nat} (hk : k < (n - 1).toNat) :
    (createPlaneWheelGraph n)[k]? =
      some [(k : Int), n - 1, ((k : Int) - 1) % (n - 1), ((k : Int) + 1) % (n - 1)] := by
  rw [wheel_unfold, List.getElem?_append]
  simp only [List.length_map, List.length_range, hk, if_true, List.getElem?_map,
    List.getElem?_range hk]
  rfl

/-- The final row of the wheel output is the hub row. -/
theorem wheel_getElem_center (n : Int) :
    (createPlaneWheelGraph n)[(n - 1).toNat]? =
      some ((n - 1) :: (List.range (n - 1).toNat).map fun x : Nat => (x : Int)) := by
  rw [wheel_unfold, List.getElem?_append]
  simp

/-- Membership characterization of wheel rows. -/
theorem mem_wheel {n : Int} {r : List Int} :
    r ∈ createPlaneWheelGraph n ↔
      (∃ x : Nat, x < (n - 1).toNat ∧
        r = [(x : Int), n - 1, ((x : Int) - 1) % (n - 1), ((x : Int) + 1) % (n - 1)]) ∨
      r = (n - 1) :: (List.range (n - 1).toNat).map fun x : Nat => (x : Int) := by
  rw [wheel_unfold]
  simp only [List.mem_append, List.mem_map, List.mem_range, List.mem_singleton]
  constructor
  · rintro (⟨x, hx, rfl⟩ | rfl)
    · exact Or.inl ⟨x, hx, rfl⟩
    · exact Or.inr rfl
  · rintro (⟨x, hx, rfl⟩ | rfl)
    · exact Or.inl ⟨x, hx, rfl⟩
    · exact Or.inr rfl

end GenWheel

/-- Quotient of the row-major encoding recovers the row index. -/
theorem rowmajor_div {n : Nat} (hn : 0 < n) (x y : Nat) (hx : x < n) :
    (y * n + x) / n = y := by
  rw [Nat.mul_comm, Nat.mul_add_div hn, Nat.div_eq_of_lt hx, Nat.add_zero]

/-- C2: for `n = 3`, `m = 2` the cylinder generator assigns IDs in row-major
order `(0,0)=1, (1,0)=2, (2,0)=3, (0,1)=4, (1,1)=5, (2,1)=6`; the first output
row is the row of coordinate `(0,0)` (the `first` template, i.e. self, right,
down, left) and the first output line is `"1 2 4 3"`. -/
theorem claim_C2 :
    GenCylinder.relabel 3 2 (0, 0) = some 1 ∧
    GenCylinder.relabel 3 2 (1, 0) = some 2 ∧
    GenCylinder.relabel 3 2 (2, 0) = some 3 ∧
    GenCylinder.relabel 3 2 (0, 1) = some 4 ∧
    GenCylinder.relabel 3 2 (1, 1) = some 5 ∧
    GenCylinder.relabel 3 2 (2, 1) = some 6 ∧
    (GenCylinder.rows 3 2).head? = some (GenCylinder.first 3 2 (0, 0)) ∧
    GenCylinder.cylinderMain ["generate-cylinder.py", "3", "2"] =
      Except.ok ["1 2 4 3", "2 3 5 1", "3 1 6 2", "4 5 6 1", "5 6 4 2", "6 4 5 3"] :=
  ⟨rfl, rfl, rfl, rfl, rfl, rfl, rfl, rfl⟩

/-- C9: for all valid dimensions, every coordinate pair appearing in any
neighbour list is an element of the row-major vertex enumeration, so the
relabeling dictionary lookup is total and the builder never fails. -/
theorem claim_C9 (n m : Nat) (hn : 3 ≤ n) (hm : 2 ≤ m) :
    (∀ r ∈ GenCylinder.rows n m, ∀ p ∈ r, p ∈ GenCylinder.vertices n m) ∧
    ∃ g, GenCylinder.createPlaneCylindricalGraph n m = some g := by
  constructor
  · intro r hr p hp
    obtain ⟨a, b⟩ := p
    rw [GenCylinder.mem_vertices]
    exact GenCylinder.mem_row_coords (by omega) (by omega) hr hp
  · exact ⟨_, GenCylinder.createPlane_eq_graphCore (by omega) (by omega)⟩

/-- Witness for C9 at `n = 3`, `m = 2`. -/
theorem claim_C9_witness :
    (∀ r ∈ GenCylinder.rows 3 2, ∀ p ∈ r, p ∈ GenCylinder.vertices 3 2) ∧
    ∃ g, GenCylinder.createPlaneCylindricalGraph 3 2 = some g :=
  claim_C9 3 2 (by decide) (by decide)

/-- C4: for all `n ≥ 3`, `m ≥ 2` the cylinder builder succeeds with exactly
`n · m` rows, and within each row all entries are pairwise distinct integers
in `[1, n·m]`. -/
theorem claim_C4 (n m : Nat) (hn : 3 ≤ n) (hm : 2 ≤ m) :
    ∃ g, GenCylinder.createPlaneCylindricalGraph n m = some g ∧
      g.length = n * m ∧
      ∀ row ∈ g, row.Nodup ∧ ∀ v ∈ row, 1 ≤ v ∧ v ≤ n * m := by
  refine ⟨GenCylinder.graphCore n m,
    GenCylinder.createPlane_eq_graphCore (by omega) (by omega), ?_, ?_⟩
  · rw [GenCylinder.graphCore, List.length_map, GenCylinder.rows_length]
    obtain ⟨k, rfl⟩ : ∃ k, m = k + 2 := ⟨m - 2, by omega⟩
    simp only [Nat.add_sub_cancel]
    ring
  · intro row hrow
    rw [GenCylinder.graphCore, List.mem_map] at hrow
    obtain ⟨r, hr, rfl⟩ := hrow
    constructor
    · refine List.Nodup.map_on ?_ (GenCylinder.row_nodup hn hm hr)
      intro p hp q hq heq
      obtain ⟨a, b⟩ := p
      obtain ⟨c, d⟩ := q
      have h1 := GenCylinder.mem_row_coords (by omega) (by omega) hr hp
      have h2 := GenCylinder.mem_row_coords (by omega) (by omega) hr hq
      simp only [GenCylinder.idOf] at heq
      have heq2 : b.toNat * n + a.toNat = d.toNat * n + c.toNat := by omega
      obtain ⟨hx, hy⟩ := rowmajor_inj (by omega) (by omega) heq2
      simp only [Prod.mk.injEq]
      omega
    · intro v hv
      rw [List.mem_map] at hv
      obtain ⟨⟨a, b⟩, hp, rfl⟩ := hv
      have h1 := GenCylinder.mem_row_coords (by omega) (by omega) hr hp
      simp only [GenCylinder.idOf]
      refine ⟨by omega, ?_⟩
      have h2 : b.toNat * n ≤ (m - 1) * n := Nat.mul_le_mul_right n (by omega)
      have h3 : (m - 1) * n + n = m * n := by
        obtain ⟨k, rfl⟩ : ∃ k, m = k + 1 := ⟨m - 1, by omega⟩
        simp only [Nat.add_sub_cancel]
        ring
      have h4 : n * m = m * n := Nat.mul_comm n m
      omega

/-- Witness for C4 at `n = 3`, `m = 2`. -/
theorem claim_C4_witness :
    ∃ g, GenCylinder.createPlaneCylindricalGraph 3 2 = some g ∧
      g.length = 3 * 2 ∧
      ∀ row ∈ g, row.Nodup ∧ ∀ v ∈ row, 1 ≤ v ∧ v ≤ 3 * 2 :=
  claim_C4 3 2 (by decide) (by decide)

/-- C5: for all `n ≥ 3`, `m ≥ 2`, a cylinder row whose self vertex sits at
`y = 0` or `y = m-1` has exactly 3 neighbours after the self entry, and a row
whose self vertex is interior (`0 < y < m-1`) has exactly 4; `y` is recovered
from the self ID `v` as `(v - 1) / n`. -/
theorem claim_C5 (n m : Nat) (hn : 3 ≤ n) (hm : 2 ≤ m) :
    ∃ g, GenCylinder.createPlaneCylindricalGraph n m = some g ∧
      ∀ row ∈ g,
        (((row.headD 1 - 1) / n = 0 ∨ (row.headD 1 - 1) / n = m - 1) →
          row.tail.length = 3) ∧
        ((0 < (row.headD 1 - 1) / n ∧ (row.headD 1 - 1) / n < m - 1) →
          row.tail.length = 4) := by
  refine ⟨GenCylinder.graphCore n m,
    GenCylinder.createPlane_eq_graphCore (by omega) (by omega), ?_⟩
  intro row hrow
  rw [GenCylinder.graphCore, List.mem_map] at hrow
  obtain ⟨r, hr, rfl⟩ := hrow
  rcases GenCylinder.mem_rows.1 hr with ⟨x, hx, rfl⟩ | ⟨x, j, hx, hj1, hj2, rfl⟩ |
    ⟨x, hx, rfl⟩
  · have hhead : ((GenCylinder.first n m ((x : Int), 0)).map (GenCylinder.idOf n)).headD 1
        = x + 1 := by
      simp [GenCylinder.first, GenCylinder.idOf]
    rw [hhead]
    have hy : (x + 1 - 1) / n = 0 := by
      simp only [Nat.add_sub_cancel]
      exact Nat.div_eq_of_lt hx
    rw [hy]
    constructor
    · intro _
      simp [GenCylinder.first, GenCylinder.right, GenCylinder.down, GenCylinder.left]
    · intro h
      omega
  · have hm3 : 3 ≤ m := by omega
    have hhead : ((GenCylinder.middle n m ((x : Int), (j : Int))).map
        (GenCylinder.idOf n)).headD 1 = j * n + x + 1 := by
      simp [GenCylinder.middle, GenCylinder.idOf]
    rw [hhead]
    have hy : (j * n + x + 1 - 1) / n = j := by
      simp only [Nat.add_sub_cancel]
      exact rowmajor_div (by omega) x j hx
    rw [hy]
    constructor
    · intro h
      exfalso
      omega
    · intro _
      simp [GenCylinder.middle, GenCylinder.right, GenCylinder.down, GenCylinder.left,
        GenCylinder.up]
  · have hhead : ((GenCylinder.last n m ((x : Int), (m : Int) - 1)).map
        (GenCylinder.idOf n)).headD 1 = (m - 1) * n + x + 1 := by
      have : ((m : Int) - 1).toNat = m - 1 := by omega
      simp [GenCylinder.last, GenCylinder.idOf, this]
    rw [hhead]
    have hy : ((m - 1) * n + x + 1 - 1) / n = m - 1 := by
      simp only [Nat.add_sub_cancel]
      exact rowmajor_div (by omega) x (m - 1) hx
    rw [hy]
    constructor
    · intro _
      simp [GenCylinder.last, GenCylinder.right, GenCylinder.left, GenCylinder.up]
    · intro h
      omega

/-- Witness for C5 at `n = 3`, `m = 2`. -/
theorem claim_C5_witness :
    ∃ g, GenCylinder.createPlaneCylindricalGraph 3 2 = some g ∧
      ∀ row ∈ g,
        (((row.headD 1 - 1) / 3 = 0 ∨ (row.headD 1 - 1) / 3 = 2 - 1) →
          row.tail.length = 3) ∧
        ((0 < (row.headD 1 - 1) / 3 ∧ (row.headD 1 - 1) / 3 < 2 - 1) →
          row.tail.length = 4) :=
  claim_C5 3 2 (by decide) (by decide)

/-- C6: for every `n ≥ 4` the wheel builder produces exactly `n` rows; rows of
cycle vertices `0..n-2` come first in increasing index order, the hub row is
last; the hub row has `n-1` neighbours after the self entry and every cycle
row has 3. -/
theorem claim_C6 (n : Int) (hn : 4 ≤ n) :
    (GenWheel.createPlaneWheelGraph n).length = n.toNat ∧
    (∀ k : Nat, k < n.toNat - 1 →
      ∃ row, (GenWheel.createPlaneWheelGraph n)[k]? = some row ∧
        row.head? = some (k : Int) ∧ row.tail.length = 3) ∧
    (∃ row, (GenWheel.createPlaneWheelGraph n)[n.toNat - 1]? = some row ∧
      row.head? = some (n - 1) ∧ row.tail.length = n.toNat - 1) := by
  refine ⟨?_, ?_, ?_⟩
  · rw [GenWheel.wheel_length]
    omega
  · intro k hk
    have hk2 : k < (n - 1).toNat := by omega
    exact ⟨_, GenWheel.wheel_getElem_cycle hk2, rfl, rfl⟩
  · have hidx : n.toNat - 1 = (n - 1).toNat := by omega
    rw [hidx]
    refine ⟨_, GenWheel.wheel_getElem_center n, rfl, ?_⟩
    simp only [List.tail_cons, List.length_map, List.length_range]

/-- Witness for C6 at `n = 4`. -/
theorem claim_C6_witness :
    (GenWheel.createPlaneWheelGraph 4).length = (4 : Int).toNat ∧
    (∀ k : Nat, k < (4 : Int).toNat - 1 →
      ∃ row, (GenWheel.createPlaneWheelGraph 4)[k]? = some row ∧
        row.head? = some (k : Int) ∧ row.tail.length = 3) ∧
    (∃ row, (GenWheel.createPlaneWheelGraph 4)[(4 : Int).toNat - 1]? = some row ∧
      row.head? = some (4 - 1) ∧ row.tail.length = (4 : Int).toNat - 1) :=
  claim_C6 4 (by decide)

/-- C10: for every `n ≥ 4`, every row produced by the wheel builder has
pairwise distinct entries: in each cycle row the self index, the hub index,
the predecessor and the successor are four distinct values, and the hub row
entries are all distinct. -/
theorem claim_C10 (n : Int) (hn : 4 ≤ n) :
    ∀ row ∈ GenWheel.createPlaneWheelGraph n, row.Nodup := by
  intro row hrow
  obtain ⟨M, hM⟩ : ∃ M : Nat, (n - 1 : Int) = (M : Int) := ⟨(n - 1).toNat, by omega⟩
  have hM3 : 3 ≤ M := by omega
  rcases GenWheel.mem_wheel.1 hrow with ⟨x, hx, rfl⟩ | rfl
  · have hx2 : x < M := by omega
    have hxI : (0 : Int) ≤ (x : Int) ∧ (x : Int) < (M : Int) := by
      constructor <;> omega
    rw [hM]
    have hprd := emod_bounds ((x : Int) - 1) M (by omega)
    have hsuc := emod_bounds ((x : Int) + 1) M (by omega)
    simp only [List.nodup_cons, List.mem_cons, List.not_mem_nil, or_false, not_or,
      List.nodup_nil, and_true]
    refine ⟨⟨?_, ?_, ?_⟩, ⟨?_, ?_⟩, ?_⟩
    · omega
    · intro h; exact absurd h.symm (sub_one_emod_ne _ M (by omega) hxI.1 hxI.2)
    · intro h; exact absurd h.symm (add_one_emod_ne _ M (by omega) hxI.1 hxI.2)
    · omega
    · omega
    · refine ⟨fun h => ?_, not_false⟩
      exact absurd h.symm (succ_pred_emod_ne _ M (by omega))
  · simp only [List.nodup_cons]
    constructor
    · simp only [List.mem_map, List.mem_range]
      rintro ⟨x, hx, hcast⟩
      omega
    · refine List.Nodup.map_on ?_ (List.nodup_range _)
      intro a _ b _ hab
      omega

/-- Witness for C10 at `n = 4`, row of cycle vertex 0. -/
theorem claim_C10_witness : ([0, 3, 2, 1] : List Int).Nodup :=
  claim_C10 4 (by decide) [0, 3, 2, 1] (by decide)

/-- C1 counterexample: at `n = 4` the wheel generator prints the raw 0-based
identifiers, not identifier + 1: the row of cycle vertex 0 is `[0, 3, 2, 1]`
(printed `"0 3 2 1"`), not `[1, 4, 3, 2]`, and the full output differs from
the claimed 1-based output. -/
theorem claim_C1_counterexample :
    GenWheel.createPlaneWheelGraph 4 =
      [[0, 3, 2, 1], [1, 3, 0, 2], [2, 3, 1, 0], [3, 0, 1, 2]] ∧
    (GenWheel.createPlaneWheelGraph 4).head? ≠ some [1, 4, 3, 2] ∧
    GenWheel.wheelMain ["generate-wheel.py", "4"] ≠
      Except.ok ["1 4 3 2", "2 4 1 3", "3 4 2 1", "4 1 2 3"] := by
  refine ⟨rfl, by decide, ?_⟩
  intro h
  rw [show GenWheel.wheelMain ["generate-wheel.py", "4"] =
    Except.ok ["0 3 2 1", "1 3 0 2", "2 3 1 0", "3 0 1 2"] from rfl] at h
  injection h with h2
  exact absurd h2 (by decide)

/-- C1 amended: every integer printed by the wheel generator is the raw
internal 0-based identifier itself (all entries lie in `[0, n-1]` and the
self entry of the `k`-th emitted row is `k`); in particular for
`generate-wheel 4` the row of cycle vertex 0 is `"0 3 2 1"` and the hub row,
emitted last, is `"3 0 1 2"`. -/
theorem claim_C1 (n : Int) (hn : 4 ≤ n) :
    (∀ row ∈ GenWheel.createPlaneWheelGraph n, ∀ v ∈ row, 0 ≤ v ∧ v < n) ∧
    (∀ k : Nat, k < n.toNat →
      ∃ row, (GenWheel.createPlaneWheelGraph n)[k]? = some row ∧
        row.head? = some (k : Int)) ∧
    GenWheel.wheelMain ["generate-wheel.py", "4"] =
      Except.ok ["0 3 2 1", "1 3 0 2", "2 3 1 0", "3 0 1 2"] := by
  obtain ⟨M, hM⟩ : ∃ M : Nat, (n - 1 : Int) = (M : Int) := ⟨(n - 1).toNat, by omega⟩
  have hM3 : 3 ≤ M := by omega
  refine ⟨?_, ?_, rfl⟩
  · intro row hrow v hv
    rcases GenWheel.mem_wheel.1 hrow with ⟨x, hx, rfl⟩ | rfl
    · rw [hM] at hv
      have hprd := emod_bounds ((x : Int) - 1) M (by omega)
      have hsuc := emod_bounds ((x : Int) + 1) M (by omega)
      simp only [List.mem_cons, List.not_mem_nil, or_false] at hv
      rcases hv with rfl | rfl | rfl | rfl <;> omega
    · simp only [List.mem_cons, List.mem_map, List.mem_range] at hv
      rcases hv with rfl | ⟨x, hx, rfl⟩ <;> omega
  · intro k hk
    rcases Nat.lt_or_ge k (n - 1).toNat with h1 | h1
    · exact ⟨_, GenWheel.wheel_getElem_cycle h1, rfl⟩
    · have hidx : k = (n - 1).toNat := by omega
      rw [hidx]
      refine ⟨_, GenWheel.wheel_getElem_center n, ?_⟩
      simp only [List.head?_cons, Option.some.injEq]
      omega

/-- Witness for the amended C1 at `n = 4`. -/
theorem claim_C1_witness :
    (∀ row ∈ GenWheel.createPlaneWheelGraph 4, ∀ v ∈ row, 0 ≤ v ∧ v < 4) ∧
    (∀ k : Nat, k < (4 : Int).toNat →
      ∃ row, (GenWheel.createPlaneWheelGraph 4)[k]? = some row ∧
        row.head? = some (k : Int)) ∧
    GenWheel.wheelMain ["generate-wheel.py", "4"] =
      Except.ok ["0 3 2 1", "1 3 0 2", "2 3 1 0", "3 0 1 2"] :=
  claim_C1 4 (by decide)

/-- C7 counterexample: at `n = 3`, `m = 2` (valid inputs) the emitted rows ARE
in vertex-ID order — the sequence of self IDs is exactly `1, 2, ..., 6` — so
the claim's universal "rows are NOT emitted in vertex-ID order" fails. -/
theorem claim_C7_counterexample :
    GenCylinder.createPlaneCylindricalGraph 3 2 =
      some [[1, 2, 4, 3], [2, 3, 5, 1], [3, 1, 6, 2], [4, 5, 6, 1], [5, 6, 4, 2],
        [6, 4, 5, 3]] ∧
    ([[1, 2, 4, 3], [2, 3, 5, 1], [3, 1, 6, 2], [4, 5, 6, 1], [5, 6, 4, 2],
      [6, 4, 5, 3]] : List (List Nat)).map (fun r => r.headD 0) =
      (List.range (3 * 2)).map (fun k => k + 1) :=
  ⟨rfl, rfl⟩

/-- C7 amended: for every `n ≥ 3`, `m ≥ 2` the cylinder builder emits rows
grouped by row class — first the `y = 0` rows for `x = 0..n-1`, then all
middle rows with the outer loop over `x` and the inner loop over
`y = 1..m-2`, then the `y = m-1` rows for `x = 0..n-1` (for `m ≤ 3` this
grouping happens to coincide with vertex-ID order). -/
theorem claim_C7 (n m : Nat) (hn : 3 ≤ n) (hm : 2 ≤ m) :
    ∃ g, GenCylinder.createPlaneCylindricalGraph n m = some g ∧
      g.map (fun r => r.headD 0) =
        ((List.range n).map fun x => x + 1) ++
        ((List.range n).flatMap fun x =>
          (List.range' 1 (m - 2)).map fun y => y * n + x + 1) ++
        ((List.range n).map fun x => (m - 1) * n + x + 1) := by
  refine ⟨GenCylinder.graphCore n m,
    GenCylinder.createPlane_eq_graphCore (by omega) (by omega), ?_⟩
  rw [GenCylinder.graphCore, List.map_map, GenCylinder.rows, List.map_append,
    List.map_append, GenCylinder.firstRow, GenCylinder.middleRows, GenCylinder.lastRow]
  congr 1
  congr 1
  · rw [List.map_map]
    refine List.map_congr_left fun x _ => ?_
    simp [GenCylinder.first, GenCylinder.idOf]
  · rw [List.map_flatMap]
    refine congrArg (List.flatMap (List.range n)) (funext fun x => ?_)
    rw [List.map_map]
    refine List.map_congr_left fun y _ => ?_
    simp [GenCylinder.middle, GenCylinder.idOf]
  · rw [List.map_map]
    refine List.map_congr_left fun x _ => ?_
    have hcast : ((m : Int) - 1).toNat = m - 1 := by omega
    simp [GenCylinder.last, GenCylinder.idOf, hcast]

/-- Witness for the amended C7 at `n = 3`, `m = 2`. -/
theorem claim_C7_witness :
    ∃ g, GenCylinder.createPlaneCylindricalGraph 3 2 = some g ∧
      g.map (fun r => r.headD 0) =
        ((List.range 3).map fun x => x + 1) ++
        ((List.range 3).flatMap fun x =>
          (List.range' 1 (2 - 2)).map fun y => y * 3 + x + 1) ++
        ((List.range 3).map fun x => (2 - 1) * 3 + x + 1) :=
  claim_C7 3 2 (by decide) (by decide)

/-- C8: each command fails (terminates via `sys.exit` with a diagnostic and no
graph output, modelled as `Except.error`) if and only if its arguments are
invalid: for the cylinder command when `n` or `m` is not a parseable integer
or `n < 3` or `m < 2`; for the wheel command when `n` is not parseable or
`n < 4`.  In the `Except` model an error carries no output lines, and the
validation sits in front of the construction, so no partial output escapes. -/
theorem claim_C8 :
    (∀ prog a b : String,
      (∃ e, GenCylinder.cylinderMain [prog, a, b] = Except.error e) ↔
        ¬ ∃ nv mv : Int, pyParseInt a = some nv ∧ pyParseInt b = some mv ∧
            3 ≤ nv ∧ 2 ≤ mv) ∧
    (∀ prog a : String,
      (∃ e, GenWheel.wheelMain [prog, a] = Except.error e) ↔
        ¬ ∃ nv : Int, pyParseInt a = some nv ∧ 4 ≤ nv) := by
  constructor
  · intro prog a b
    cases hpa : pyParseInt a with
    | none =>
        simp only [GenCylinder.cylinderMain, hpa]
        constructor
        · rintro - ⟨nv, mv, h1, -, -, -⟩
          exact Option.noConfusion h1
        · intro _
          exact ⟨_, rfl⟩
    | some nv =>
        cases hpb : pyParseInt b with
        | none =>
            simp only [GenCylinder.cylinderMain, hpa, hpb]
            constructor
            · rintro - ⟨nv2, mv2, -, h2, -, -⟩
              exact Option.noConfusion h2
            · intro _
              exact ⟨_, rfl⟩
        | some mv =>
            simp only [GenCylinder.cylinderMain, hpa, hpb]
            by_cases h3 : nv < 3
            · simp only [h3, if_true]
              constructor
              · rintro - ⟨nv2, mv2, h1, -, hge, -⟩
                injection h1 with h1
                omega
              · intro _
                exact ⟨_, rfl⟩
            · by_cases h4 : mv < 2
              · simp only [h3, h4, if_false, if_true]
                constructor
                · rintro - ⟨nv2, mv2, -, h2, -, hge⟩
                  injection h2 with h2
                  omega
                · intro _
                  exact ⟨_, rfl⟩
              · simp only [h3, h4, if_false]
                rw [GenCylinder.createPlane_eq_graphCore (n := nv.toNat) (m := mv.toNat)
                  (by omega) (by omega)]
                constructor
                · rintro ⟨e, he⟩
                  exact Except.noConfusion he
                · intro hno
                  exact absurd ⟨nv, mv, rfl, rfl, by omega, by omega⟩ hno
  · intro prog a
    cases hpa : pyParseInt a with
    | none =>
        simp only [GenWheel.wheelMain, hpa]
        constructor
        · rintro - ⟨nv, h1, -⟩
          exact Option.noConfusion h1
        · intro _
          exact ⟨_, rfl⟩
    | some nv =>
        simp only [GenWheel.wheelMain, hpa]
        by_cases h4 : nv < 4
        · simp only [h4, if_true]
          constructor
          · rintro - ⟨nv2, h1, hge⟩
            injection h1 with h1
            omega
          · intro _
            exact ⟨_, rfl⟩
        · simp only [h4, if_false]
          constructor
          · rintro ⟨e, he⟩
            exact Except.noConfusion he
          · intro hno
            exact absurd ⟨nv, rfl, by omega⟩ hno

/-- Witness for C8: `generate-cylinder 2 5` fails (its `n` violates `n ≥ 3`). -/
theorem claim_C8_witness :
    ∃ e, GenCylinder.cylinderMain ["generate-cylinder.py", "2", "5"] = Except.error e :=
  (claim_C8.1 "generate-cylinder.py" "2" "5").mpr (by
    rintro ⟨nv, mv, h1, h2, h3, h4⟩
    rw [show pyParseInt "2" = some 2 from rfl] at h1
    injection h1 with h1
    omega)

/-- Wrapping successor: the right neighbour's column is a valid column whose
left neighbour is the original column. -/
theorem wrap_succ (x n : Nat) (hn : 1 ≤ n) (hx : x < n) :
    ∃ x2 : Nat, x2 < n ∧ ((x2 : Int)) = ((x : Int) + 1) % (n : Int) ∧
      ((x2 : Int) - 1) % (n : Int) = (x : Int) := by
  have hb := emod_bounds ((x : Int) + 1) n hn
  refine ⟨(((x : Int) + 1) % (n : Int)).toNat, by omega, by omega, ?_⟩
  rw [show ((((x : Int) + 1) % (n : Int)).toNat : Int) = ((x : Int) + 1) % (n : Int)
    by omega]
  rw [emod_sub_emod, show ((x : Int) + 1 - 1) = (x : Int) by ring]
  exact Int.emod_eq_of_lt (by omega) (by omega)

/-- Wrapping predecessor: the left neighbour's column is a valid column whose
right neighbour is the original column. -/
theorem wrap_pred (x n : Nat) (hn : 1 ≤ n) (hx : x < n) :
    ∃ x2 : Nat, x2 < n ∧ ((x2 : Int)) = ((x : Int) - 1) % (n : Int) ∧
      ((x2 : Int) + 1) % (n : Int) = (x : Int) := by
  have hb := emod_bounds ((x : Int) - 1) n hn
  refine ⟨(((x : Int) - 1) % (n : Int)).toNat, by omega, by omega, ?_⟩
  rw [show ((((x : Int) - 1) % (n : Int)).toNat : Int) = ((x : Int) - 1) % (n : Int)
    by omega]
  rw [emod_add_emod, show ((x : Int) - 1 + 1) = (x : Int) by ring]
  exact Int.emod_eq_of_lt (by omega) (by omega)

namespace GenCylinder

/-- Coordinate-level symmetry of the cylinder rows: if `q` is listed as a
neighbour in the row headed by `p`, then `p` is listed as a neighbour in the
row headed by `q`. -/
theorem rows_symm {n m : Nat} (hn : 3 ≤ n) (hm : 2 ≤ m) {r : List (Int × Int)}
    (hr : r ∈ rows n m) {p q : Int × Int} (hp : r.head? = some p) (hq : q ∈ r.tail) :
    ∃ r2 ∈ rows n m, r2.head? = some q ∧ p ∈ r2.tail := by
  have hmI : (2 : Int) ≤ (m : Int) := by exact_mod_cast hm
  have h1m : ((0 : Int) + 1) % (m : Int) = 1 := Int.emod_eq_of_lt (by omega) (by omega)
  rcases mem_rows.1 hr with ⟨x, hx, rfl⟩ | ⟨x, j, hx, hj1, hj2, rfl⟩ | ⟨x, hx, rfl⟩
  · obtain rfl : p = ((x : Int), 0) := by
      simp only [first, List.head?_cons, Option.some.injEq] at hp
      exact hp.symm
    simp only [first, right, down, left, List.tail_cons, List.mem_cons,
      List.not_mem_nil, or_false] at hq
    rcases hq with rfl | rfl | rfl
    · obtain ⟨x2, hx2, hc, hback⟩ := wrap_succ x n (by omega) hx
      refine ⟨first n m ((x2 : Int), 0), mem_rows.2 (Or.inl ⟨x2, hx2, rfl⟩), ?_, ?_⟩
      · simp only [first, List.head?_cons, Option.some.injEq, Prod.mk.injEq]
        exact ⟨hc, True.intro⟩
      · simp only [first, right, down, left, List.tail_cons, List.mem_cons,
          List.not_mem_nil, or_false]
        right; right
        simp only [Prod.mk.injEq]
        exact ⟨hback.symm, True.intro⟩
    · by_cases hm3 : 3 ≤ m
      · refine ⟨middle n m ((x : Int), ((1 : Nat) : Int)),
          mem_rows.2 (Or.inr (Or.inl ⟨x, 1, hx, le_refl 1, by omega, rfl⟩)), ?_, ?_⟩
        · simp only [middle, List.head?_cons, Option.some.injEq, Prod.mk.injEq]
          refine ⟨True.intro, ?_⟩
          rw [h1m]
          simp
        · simp only [middle, right, down, left, up, List.tail_cons, List.mem_cons,
            List.not_mem_nil, or_false]
          right; right; right
          simp only [Prod.mk.injEq]
          refine ⟨True.intro, ?_⟩
          norm_num
      · refine ⟨last n m ((x : Int), (m : Int) - 1),
          mem_rows.2 (Or.inr (Or.inr ⟨x, hx, rfl⟩)), ?_, ?_⟩
        · simp only [last, List.head?_cons, Option.some.injEq, Prod.mk.injEq]
          refine ⟨True.intro, ?_⟩
          rw [h1m]
          omega
        · simp only [last, right, left, up, List.tail_cons, List.mem_cons,
            List.not_mem_nil, or_false]
          right; right
          simp only [Prod.mk.injEq]
          refine ⟨True.intro, ?_⟩
          rw [show ((m : Int) - 1 - 1) = (m : Int) - 2 by ring,
            show ((m : Int) - 2) = 0 by omega]
          simp
    · obtain ⟨x2, hx2, hc, hback⟩ := wrap_pred x n (by omega) hx
      refine ⟨first n m ((x2 : Int), 0), mem_rows.2 (Or.inl ⟨x2, hx2, rfl⟩), ?_, ?_⟩
      · simp only [first, List.head?_cons, Option.some.injEq, Prod.mk.injEq]
        exact ⟨hc, True.intro⟩
      · simp only [first, right, down, left, List.tail_cons, List.mem_cons,
          List.not_mem_nil, or_false]
        left
        simp only [Prod.mk.injEq]
        exact ⟨hback.symm, True.intro⟩
  · obtain rfl : p = ((x : Int), (j : Int)) := by
      simp only [middle, List.head?_cons, Option.some.injEq] at hp
      exact hp.symm
    have hm3 : 3 ≤ m := by omega
    have hdj : ((j : Int) + 1) % (m : Int) = (j : Int) + 1 :=
      Int.emod_eq_of_lt (by omega) (by omega)
    have huj : ((j : Int) - 1) % (m : Int) = (j : Int) - 1 :=
      Int.emod_eq_of_lt (by omega) (by omega)
    simp only [middle, right, down, left, up, List.tail_cons, List.mem_cons,
      List.not_mem_nil, or_false] at hq
    rcases hq with rfl | rfl | rfl | rfl
    · obtain ⟨x2, hx2, hc, hback⟩ := wrap_succ x n (by omega) hx
      refine ⟨middle n m ((x2 : Int), (j : Int)),
        mem_rows.2 (Or.inr (Or.inl ⟨x2, j, hx2, hj1, hj2, rfl⟩)), ?_, ?_⟩
      · simp only [middle, List.head?_cons, Option.some.injEq, Prod.mk.injEq]
        exact ⟨hc, True.intro⟩
      · simp only [middle, right, down, left, up, List.tail_cons, List.mem_cons,
          List.not_mem_nil, or_false]
        right; right; left
        simp only [Prod.mk.injEq]
        exact ⟨hback.symm, True.intro⟩
    · by_cases hlast : j + 1 ≤ m - 2
      · refine ⟨middle n m ((x : Int), ((j + 1 : Nat) : Int)),
          mem_rows.2 (Or.inr (Or.inl ⟨x, j + 1, hx, by omega, hlast, rfl⟩)), ?_, ?_⟩
        · simp only [middle, List.head?_cons, Option.some.injEq, Prod.mk.injEq]
          refine ⟨True.intro, ?_⟩
          rw [hdj]
          push_cast
          ring
        · simp only [middle, right, down, left, up, List.tail_cons, List.mem_cons,
            List.not_mem_nil, or_false]
          right; right; right
          simp only [Prod.mk.injEq]
          refine ⟨True.intro, ?_⟩
          rw [show (((j + 1 : Nat) : Int) - 1) = (j : Int) by push_cast; ring]
          rw [Int.emod_eq_of_lt (by omega) (by omega)]
      · refine ⟨last n m ((x : Int), (m : Int) - 1),
          mem_rows.2 (Or.inr (Or.inr ⟨x, hx, rfl⟩)), ?_, ?_⟩
        · simp only [last, List.head?_cons, Option.some.injEq, Prod.mk.injEq]
          refine ⟨True.intro, ?_⟩
          rw [hdj]
          omega
        · simp only [last, right, left, up, List.tail_cons, List.mem_cons,
            List.not_mem_nil, or_false]
          right; right
          simp only [Prod.mk.injEq]
          refine ⟨True.intro, ?_⟩
          rw [show ((m : Int) - 1 - 1) = (m : Int) - 2 by ring]
          rw [Int.emod_eq_of_lt (by omega) (by omega)]
          omega
    · obtain ⟨x2, hx2, hc, hback⟩ := wrap_pred x n (by omega) hx
      refine ⟨middle n m ((x2 : Int), (j : Int)),
        mem_rows.2 (Or.inr (Or.inl ⟨x2, j, hx2, hj1, hj2, rfl⟩)), ?_, ?_⟩
      · simp only [middle, List.head?_cons, Option.some.injEq, Prod.mk.injEq]
        exact ⟨hc, True.intro⟩
      · simp only [middle, right, down, left, up, List.tail_cons, List.mem_cons,
          List.not_mem_nil, or_false]
        left
        simp only [Prod.mk.injEq]
        exact ⟨hback.symm, True.intro⟩
    · by_cases hfirst : j = 1
      · refine ⟨first n m ((x : Int), 0), mem_rows.2 (Or.inl ⟨x, hx, rfl⟩), ?_, ?_⟩
        · simp only [first, List.head?_cons, Option.some.injEq, Prod.mk.injEq]
          refine ⟨True.intro, ?_⟩
          rw [huj]
          omega
        · simp only [first, right, down, left, List.tail_cons, List.mem_cons,
            List.not_mem_nil, or_false]
          right; left
          simp only [Prod.mk.injEq]
          refine ⟨True.intro, ?_⟩
          rw [h1m]
          omega
      · refine ⟨middle n m ((x : Int), ((j - 1 : Nat) : Int)),
          mem_rows.2 (Or.inr (Or.inl ⟨x, j - 1, hx, by omega, by omega, rfl⟩)), ?_, ?_⟩
        · simp only [middle, List.head?_cons, Option.some.injEq, Prod.mk.injEq]
          refine ⟨True.intro, ?_⟩
          rw [huj]
          omega
        · simp only [middle, right, down, left, up, List.tail_cons, List.mem_cons,
            List.not_mem_nil, or_false]
          right; left
          simp only [Prod.mk.injEq]
          refine ⟨True.intro, ?_⟩
          rw [show (((j - 1 : Nat) : Int) + 1) = (j : Int) by omega]
          rw [Int.emod_eq_of_lt (by omega) (by omega)]
  · obtain rfl : p = ((x : Int), (m : Int) - 1) := by
      simp only [last, List.head?_cons, Option.some.injEq] at hp
      exact hp.symm
    simp only [last, right, left, up, List.tail_cons, List.mem_cons,
      List.not_mem_nil, or_false] at hq
    rcases hq with rfl | rfl | rfl
    · obtain ⟨x2, hx2, hc, hback⟩ := wrap_succ x n (by omega) hx
      refine ⟨last n m ((x2 : Int), (m : Int) - 1),
        mem_rows.2 (Or.inr (Or.inr ⟨x2, hx2, rfl⟩)), ?_, ?_⟩
      · simp only [last, List.head?_cons, Option.some.injEq, Prod.mk.injEq]
        exact ⟨hc, True.intro⟩
      · simp only [last, right, left, up, List.tail_cons, List.mem_cons,
          List.not_mem_nil, or_false]
        right; left
        simp only [Prod.mk.injEq]
        exact ⟨hback.symm, True.intro⟩
    · obtain ⟨x2, hx2, hc, hback⟩ := wrap_pred x n (by omega) hx
      refine ⟨last n m ((x2 : Int), (m : Int) - 1),
        mem_rows.2 (Or.inr (Or.inr ⟨x2, hx2, rfl⟩)), ?_, ?_⟩
      · simp only [last, List.head?_cons, Option.some.injEq, Prod.mk.injEq]
        exact ⟨hc, True.intro⟩
      · simp only [last, right, left, up, List.tail_cons, List.mem_cons,
          List.not_mem_nil, or_false]
        left
        simp only [Prod.mk.injEq]
        exact ⟨hback.symm, True.intro⟩
    · have hup : ((m : Int) - 1 - 1) % (m : Int) = (m : Int) - 2 := by
        rw [show ((m : Int) - 1 - 1) = (m : Int) - 2 by ring]
        exact Int.emod_eq_of_lt (by omega) (by omega)
      by_cases hm2 : m = 2
      · refine ⟨first n m ((x : Int), 0), mem_rows.2 (Or.inl ⟨x, hx, rfl⟩), ?_, ?_⟩
        · simp only [first, List.head?_cons, Option.some.injEq, Prod.mk.injEq]
          refine ⟨True.intro, ?_⟩
          rw [hup]
          omega
        · simp only [first, right, down, left, List.tail_cons, List.mem_cons,
            List.not_mem_nil, or_false]
          right; left
          simp only [Prod.mk.injEq]
          refine ⟨True.intro, ?_⟩
          rw [h1m]
          omega
      · refine ⟨middle n m ((x : Int), ((m - 2 : Nat) : Int)),
          mem_rows.2 (Or.inr (Or.inl ⟨x, m - 2, hx, by omega, by omega, rfl⟩)), ?_, ?_⟩
        · simp only [middle, List.head?_cons, Option.some.injEq, Prod.mk.injEq]
          refine ⟨True.intro, ?_⟩
          rw [hup]
          omega
        · simp only [middle, right, down, left, up, List.tail_cons, List.mem_cons,
            List.not_mem_nil, or_false]
          right; left
          simp only [Prod.mk.injEq]
          refine ⟨True.intro, ?_⟩
          rw [show (((m - 2 : Nat) : Int) + 1) = (m : Int) - 1 by omega]
          rw [Int.emod_eq_of_lt (by omega) (by omega)]

end GenCylinder

namespace GenWheel

/-- Symmetry of the wheel rows: if `q` is listed as a neighbour in the row
headed by `p`, then `p` is listed as a neighbour in the row headed by `q`. -/
theorem wheel_symm {n : Int} (hn : 4 ≤ n) {r : List Int}
    (hr : r ∈ createPlaneWheelGraph n) {p q : Int} (hp : r.head? = some p)
    (hq : q ∈ r.tail) :
    ∃ r2 ∈ createPlaneWheelGraph n, r2.head? = some q ∧ p ∈ r2.tail := by
  obtain ⟨M, hM⟩ : ∃ M : Nat, (n - 1 : Int) = (M : Int) := ⟨(n - 1).toNat, by omega⟩
  have hM3 : 3 ≤ M := by omega
  rcases mem_wheel.1 hr with ⟨x, hx, rfl⟩ | rfl
  · obtain rfl : p = (x : Int) := by
      simp only [List.head?_cons, Option.some.injEq] at hp
      exact hp.symm
    have hx2 : x < M := by omega
    simp only [List.tail_cons, List.mem_cons, List.not_mem_nil, or_false] at hq
    rcases hq with rfl | rfl | rfl
    · refine ⟨_, mem_wheel.2 (Or.inr rfl), ?_, ?_⟩
      · simp
      · simp only [List.tail_cons, List.mem_map, List.mem_range]
        exact ⟨x, by omega, rfl⟩
    · rw [hM]
      obtain ⟨x2, hx2', hc, hback⟩ := wrap_pred x M (by omega) hx2
      refine ⟨_, mem_wheel.2 (Or.inl ⟨x2, by omega, rfl⟩), ?_, ?_⟩
      · simp only [List.head?_cons, Option.some.injEq]
        exact hc
      · simp only [List.tail_cons, List.mem_cons, List.not_mem_nil, or_false]
        right; right
        rw [hM]
        exact hback.symm
    · rw [hM]
      obtain ⟨x2, hx2', hc, hback⟩ := wrap_succ x M (by omega) hx2
      refine ⟨_, mem_wheel.2 (Or.inl ⟨x2, by omega, rfl⟩), ?_, ?_⟩
      · simp only [List.head?_cons, Option.some.injEq]
        exact hc
      · simp only [List.tail_cons, List.mem_cons, List.not_mem_nil, or_false]
        right; left
        rw [hM]
        exact hback.symm
  · obtain rfl : p = n - 1 := by
      simp only [List.head?_cons, Option.some.injEq] at hp
      exact hp.symm
    simp only [List.tail_cons, List.mem_map, List.mem_range] at hq
    obtain ⟨x, hx, rfl⟩ := hq
    refine ⟨_, mem_wheel.2 (Or.inl ⟨x, hx, rfl⟩), ?_, ?_⟩
    · simp
    · simp only [List.tail_cons, List.mem_cons]
      exact Or.inl True.intro

end GenWheel

/-- C3: the adjacency relation of either builder's output is symmetric — if
vertex `b` appears among the neighbours in the row whose self entry is `a`,
then `a` appears among the neighbours in the row whose self entry is `b` —
for every valid cylinder input `n ≥ 3`, `m ≥ 2` and every valid wheel input
`n ≥ 4`. -/
theorem claim_C3 :
    (∀ n m : Nat, 3 ≤ n → 2 ≤ m →
      ∀ g, GenCylinder.createPlaneCylindricalGraph n m = some g →
      ∀ a b : Nat, Adj g a b → Adj g b a) ∧
    (∀ n : Int, 4 ≤ n → ∀ a b : Int,
      Adj (GenWheel.createPlaneWheelGraph n) a b →
      Adj (GenWheel.createPlaneWheelGraph n) b a) := by
  constructor
  · intro n m hn hm g hg a b hadj
    rw [GenCylinder.createPlane_eq_graphCore (by omega) (by omega)] at hg
    injection hg with hg
    subst hg
    obtain ⟨r', hr', hhead, hmem⟩ := hadj
    rw [GenCylinder.graphCore, List.mem_map] at hr'
    obtain ⟨r, hr, rfl⟩ := hr'
    rw [List.head?_map] at hhead
    obtain ⟨p, hp, rfl⟩ := Option.map_eq_some'.1 hhead
    rw [← List.map_tail, List.mem_map] at hmem
    obtain ⟨q, hq, rfl⟩ := hmem
    obtain ⟨r2, hr2, hhead2, hmem2⟩ := GenCylinder.rows_symm hn hm hr hp hq
    refine ⟨r2.map (GenCylinder.idOf n), ?_, ?_, ?_⟩
    · rw [GenCylinder.graphCore]
      exact List.mem_map_of_mem _ hr2
    · rw [List.head?_map, hhead2]
      rfl
    · rw [← List.map_tail]
      exact List.mem_map_of_mem _ hmem2
  · intro n hn a b hadj
    obtain ⟨r, hr, hhead, hmem⟩ := hadj
    exact GenWheel.wheel_symm hn hr hhead hmem

/-- Witness for C3: wheel 4 has the hub adjacency `0 ↔ 3` both ways, and the
3×2 cylinder output has `1 ↔ 2` both ways. -/
theorem claim_C3_witness :
    Adj (GenWheel.createPlaneWheelGraph 4) 3 0 ∧
    Adj [[1, 2, 4, 3], [2, 3, 5, 1], [3, 1, 6, 2], [4, 5, 6, 1], [5, 6, 4, 2],
      [6, 4, 5, 3]] 2 1 :=
  ⟨claim_C3.2 4 (by decide) 0 3 (by decide),
   claim_C3.1 3 2 (by decide) (by decide) _ rfl 1 2 (by decide)⟩
